import Mathlib

/-!
Verification of the `bad_video_cleaner.py` pipeline: a shallow embedding of
`vlc_can_play`, `check_video` and `scan_videos`, together with theorems about
classification, logging and deletion behaviour.

The external subprocess invocation is abstracted by a `ProcEvent`: the four
ways `subprocess.run(["cvlc", ...], capture_output=True, text=True, timeout=t)`
can come back to the caller — a completed process carrying an exit code and a
captured stderr stream, a `subprocess.TimeoutExpired` exception (the runtime
kills the child before raising it), a `FileNotFoundError` (the `cvlc`
executable is not on PATH), or any other exception, which no handler in the
source catches.  The worker pool's completion order is abstracted by letting
the scan consume an arbitrary ordering of `(path, event)` pairs: one pair per
discovered file, in whatever order `Pool.imap_unordered` yields the results.
-/

/-- The observable result of the `subprocess.run` call inside `vlc_can_play`. -/
inductive ProcEvent where
  | completed (returncode : Int) (stderr : String)
  | timedOut
  | fileNotFound
  | raised (msg : String)
deriving Repr, DecidableEq

/-- The literal reason string of `bad_video_cleaner.py` line 33. -/
def unavailableMsg : String :=
  "cvlc not found, please install VLC and ensure 'cvlc' is in PATH"

/-- Python's `str.strip()` with no argument: the string with leading and
trailing whitespace characters removed. -/
def pyStrip (s : String) : String :=
  ⟨((s.data.dropWhile Char.isWhitespace).reverse.dropWhile
      Char.isWhitespace).reverse⟩

/-- `vlc_can_play` (lines 15-33).  Returns `(True, "ok")` on exit code 0,
`(False, stderr.strip())` on a non-zero exit code, `(False, "timeout expired")`
when the run times out, and `(False, unavailableMsg)` when `cvlc` is missing.
Any other exception is not caught and propagates (`Except.error`). -/
def vlc_can_play : ProcEvent → Except String (Bool × String)
  | .completed rc stderr =>
      if rc ≠ 0 then .ok (false, pyStrip stderr) else .ok (true, "ok")
  | .timedOut => .ok (false, "timeout expired")
  | .fileNotFound => .ok (false, unavailableMsg)
  | .raised msg => .error msg

/-- `check_video` (lines 38-41): `(path, not playable, reason)`.  There is no
handler here, so an exception from `vlc_can_play` propagates. -/
def check_video (path : String) (ev : ProcEvent) :
    Except String (String × Bool × String) :=
  match vlc_can_play ev with
  | .error e => .error e
  | .ok (playable, reason) => .ok (path, !playable, reason)

/-- The aggregator state built by the loop of `scan_videos` (lines 57-73):
the `corrupted` and `good` lists and the log lines written so far (each
`log.write` call appends the line below plus a trailing newline). -/
structure ScanState where
  corrupted : List String
  good : List String
  log : List String
deriving Repr, DecidableEq

/-- One iteration of the result loop (lines 61-73): a corrupt result appends
the path to `corrupted` and the line `CORRUPT\t<reason>\t<path>` to the log;
a good result appends the path to `good` and the line `OK\t<path>`. -/
def processResult (st : ScanState) (r : String × Bool × String) : ScanState :=
  let (path, isCorrupt, reason) := r
  if isCorrupt then
    { st with corrupted := st.corrupted ++ [path],
              log := st.log ++ ["CORRUPT\t" ++ reason ++ "\t" ++ path] }
  else
    { st with good := st.good ++ [path],
              log := st.log ++ ["OK\t" ++ path] }

/-- The result loop over the stream of worker results.  When retrieving one
result re-raises a worker exception, the loop stops there: the pairs after it
are never classified, and the state built so far is what was written. -/
def runLoop (st : ScanState) : List (String × ProcEvent) → ScanState × Option String
  | [] => (st, none)
  | (p, ev) :: rest =>
      match check_video p ev with
      | .error e => (st, some e)
      | .ok r => runLoop (processResult st r) rest

/-- Outcome of one `scan_videos` run: an early return because no video file
was found (line 50-52, the log is never opened), an abort because a worker
exception reached the parent (the log holds what was written before it; the
deletion block is never reached), or a completed run together with the list
of paths passed to `os.remove` (lines 80-87). -/
inductive ScanResult where
  | noFiles
  | aborted (msg : String) (state : ScanState)
  | finished (state : ScanState) (deleted : List String)
deriving Repr, DecidableEq

/-- `scan_videos` (lines 46-90) on a given stream of `(path, event)` pairs —
one pair per discovered file, in completion order — and a `dry_run` flag.
Deletion runs only `if corrupted and not dry_run` (line 80). -/
def scan_videos (inputs : List (String × ProcEvent)) (dryRun : Bool) :
    ScanResult :=
  if inputs.isEmpty then .noFiles
  else
    match runLoop ⟨[], [], []⟩ inputs with
    | (st, some e) => .aborted e st
    | (st, none) =>
        .finished st (if st.corrupted.isEmpty ∨ dryRun then [] else st.corrupted)

/-- The `corrupted` list visible after a run. -/
def corruptedOf : ScanResult → List String
  | .noFiles => []
  | .aborted _ st => st.corrupted
  | .finished st _ => st.corrupted

/-- The `good` list visible after a run. -/
def goodOf : ScanResult → List String
  | .noFiles => []
  | .aborted _ st => st.good
  | .finished st _ => st.good

/-- The log lines written during a run (each is written with a trailing
newline appended). -/
def logOf : ScanResult → List String
  | .noFiles => []
  | .aborted _ st => st.log
  | .finished st _ => st.log

/-- The paths passed to `os.remove`.  Nothing is deleted on an early return
or an abort, since the deletion block sits after the result loop. -/
def deletedOf : ScanResult → List String
  | .finished _ d => d
  | _ => []

/-- The mode `log_path` is opened with, if it is opened at all: `open(log_path,
"w")` on line 60 runs exactly when at least one file was discovered. -/
def logOpenMode : ScanResult → Option String
  | .noFiles => none
  | .aborted _ _ => some "w"
  | .finished _ _ => some "w"

/-- The bytes of the log file when the run ends, given its previous contents:
an early return never opens the file, otherwise mode `"w"` truncates it and
the written lines (each followed by a newline) replace the old contents. -/
def logDump (lines : List String) : String :=
  String.join (lines.map (fun l => l ++ "\n"))

/-- Contents of the file at `log_path` after the run, as a function of its
contents before the run. -/
def finalLogContents (prev : String) : ScanResult → String
  | .noFiles => prev
  | .aborted _ st => logDump st.log
  | .finished st _ => logDump st.log

/-- The log line the loop writes for the file `p` under process event `ev`
(without the trailing newline); `""` if the worker raised instead. -/
def lineFor (p : String) (ev : ProcEvent) : String :=
  match vlc_can_play ev with
  | .ok (true, _) => "OK\t" ++ p
  | .ok (false, reason) => "CORRUPT\t" ++ reason ++ "\t" ++ p
  | .error _ => ""

/-- Whether the worker raises an uncaught exception on this event. -/
def evRaises : ProcEvent → Bool
  | .raised _ => true
  | _ => false

/-- The `is_corrupt` flag `check_video` computes for a non-raising event. -/
def evCorrupt : ProcEvent → Bool
  | .completed rc _ => decide (rc ≠ 0)
  | _ => true

/-- The reason string `check_video` computes for a non-raising event. -/
def evReason : ProcEvent → String
  | .completed rc stderr => if rc ≠ 0 then pyStrip stderr else "ok"
  | .timedOut => "timeout expired"
  | .fileNotFound => unavailableMsg
  | .raised m => m

deriving instance DecidableEq for Except

theorem check_video_raised (p m : String) :
    check_video p (.raised m) = .error m := rfl

theorem check_video_eq_ok (p : String) (ev : ProcEvent)
    (h : evRaises ev = false) :
    check_video p ev = .ok (p, evCorrupt ev, evReason ev) := by
  cases ev with
  | completed rc stderr =>
      by_cases hrc : rc = 0 <;>
        simp [check_video, vlc_can_play, evCorrupt, evReason, hrc]
  | timedOut => rfl
  | fileNotFound => rfl
  | raised m => simp [evRaises] at h

theorem check_video_ok_inv (p : String) (ev : ProcEvent)
    (r : String × Bool × String) (h : check_video p ev = .ok r) :
    evRaises ev = false ∧ r = (p, evCorrupt ev, evReason ev) := by
  cases ev with
  | raised m => rw [check_video_raised] at h; exact absurd h (by simp)
  | completed rc stderr =>
      refine ⟨rfl, ?_⟩
      rw [check_video_eq_ok p (.completed rc stderr) (by rfl)] at h
      exact (Except.ok.injEq .. ▸ h).symm
  | timedOut =>
      refine ⟨rfl, ?_⟩
      rw [check_video_eq_ok p .timedOut (by rfl)] at h
      exact (Except.ok.injEq .. ▸ h).symm
  | fileNotFound =>
      refine ⟨rfl, ?_⟩
      rw [check_video_eq_ok p .fileNotFound (by rfl)] at h
      exact (Except.ok.injEq .. ▸ h).symm

theorem lineFor_eq (p : String) (ev : ProcEvent) (h : evRaises ev = false) :
    lineFor p ev =
      if evCorrupt ev then "CORRUPT\t" ++ evReason ev ++ "\t" ++ p
      else "OK\t" ++ p := by
  cases ev with
  | completed rc stderr =>
      by_cases hrc : rc = 0 <;>
        simp [lineFor, vlc_can_play, evCorrupt, evReason, hrc]
  | timedOut => rfl
  | fileNotFound => rfl
  | raised m => simp [evRaises] at h

theorem runLoop_eq (l : List (String × ProcEvent)) (st : ScanState)
    (h : ∀ q ∈ l, evRaises q.2 = false) :
    runLoop st l =
      ({ corrupted :=
           st.corrupted ++ (l.filter fun q => evCorrupt q.2).map Prod.fst,
         good := st.good ++ (l.filter fun q => !evCorrupt q.2).map Prod.fst,
         log := st.log ++ l.map fun q => lineFor q.1 q.2 }, none) := by
  induction l generalizing st with
  | nil => simp [runLoop]
  | cons q rest ih =>
      obtain ⟨p, ev⟩ := q
      have hq : evRaises ev = false := h _ (List.mem_cons_self _ _)
      have hrest : ∀ u ∈ rest, evRaises u.2 = false :=
        fun u hu => h u (List.mem_cons_of_mem _ hu)
      simp only [runLoop, check_video_eq_ok p ev hq]
      rw [ih _ hrest]
      by_cases hc : evCorrupt ev
      · simp [processResult, hc, lineFor_eq p ev hq, List.filter_cons]
      · simp [processResult, hc, lineFor_eq p ev hq, List.filter_cons]

theorem runLoop_no_raise (l : List (String × ProcEvent)) (st st' : ScanState)
    (h : runLoop st l = (st', none)) :
    ∀ q ∈ l, evRaises q.2 = false := by
  induction l generalizing st with
  | nil => simp
  | cons q rest ih =>
      obtain ⟨p, ev⟩ := q
      intro u hu
      rcases List.mem_cons.mp hu with rfl | hu₂
      all_goals
        simp only [runLoop] at h
        cases hcv : check_video p ev with
        | error e => rw [hcv] at h; exact absurd h (by simp)
        | ok r =>
            rw [hcv] at h
            first
            | exact (check_video_ok_inv p ev r hcv).1
            | exact ih _ h u hu₂

theorem scan_videos_finished (inputs : List (String × ProcEvent))
    (dryRun : Bool) (st : ScanState) (del : List String)
    (h : scan_videos inputs dryRun = .finished st del) :
    inputs ≠ [] ∧ runLoop ⟨[], [], []⟩ inputs = (st, none) ∧
      del = (if st.corrupted.isEmpty ∨ dryRun then [] else st.corrupted) := by
  unfold scan_videos at h
  by_cases he : inputs.isEmpty
  · rw [if_pos he] at h
    exact absurd h (by simp)
  · rw [if_neg he] at h
    refine ⟨fun hn => he (by simp [hn]), ?_⟩
    rcases hr : runLoop ⟨[], [], []⟩ inputs with ⟨st', o⟩
    rw [hr] at h
    cases o with
    | some e => exact absurd h (by simp)
    | none =>
        simp only [ScanResult.finished.injEq] at h
        obtain ⟨h1, h2⟩ := h
        subst h1
        exact ⟨rfl, h2.symm⟩

theorem scan_videos_aborted (inputs : List (String × ProcEvent))
    (dryRun : Bool) (e : String) (st : ScanState)
    (h : scan_videos inputs dryRun = .aborted e st) :
    inputs ≠ [] ∧ runLoop ⟨[], [], []⟩ inputs = (st, some e) := by
  unfold scan_videos at h
  by_cases he : inputs.isEmpty
  · rw [if_pos he] at h
    exact absurd h (by simp)
  · rw [if_neg he] at h
    refine ⟨fun hn => he (by simp [hn]), ?_⟩
    rcases hr : runLoop ⟨[], [], []⟩ inputs with ⟨st', o⟩
    rw [hr] at h
    cases o with
    | some e' =>
        simp only [ScanResult.aborted.injEq] at h
        obtain ⟨h1, h2⟩ := h
        rw [h1, h2]
    | none => exact absurd h (by simp)

theorem runLoop_scope (l : List (String × ProcEvent)) (st : ScanState) :
    (∀ x ∈ (runLoop st l).1.corrupted, x ∈ st.corrupted ∨ x ∈ l.map Prod.fst) ∧
    (∀ x ∈ (runLoop st l).1.good, x ∈ st.good ∨ x ∈ l.map Prod.fst) ∧
    (∀ x ∈ (runLoop st l).1.log,
        x ∈ st.log ∨ ∃ u ∈ l, x = lineFor u.1 u.2) := by
  induction l generalizing st with
  | nil => simp [runLoop]
  | cons q rest ih =>
      obtain ⟨p, ev⟩ := q
      simp only [runLoop]
      cases hcv : check_video p ev with
      | error e =>
          exact ⟨fun x hx => Or.inl hx, fun x hx => Or.inl hx,
                 fun x hx => Or.inl hx⟩
      | ok r =>
          obtain ⟨hnr, hr⟩ := check_video_ok_inv p ev r hcv
          subst hr
          obtain ⟨ihc, ihg, ihl⟩ :=
            ih (processResult st (p, evCorrupt ev, evReason ev))
          have hpc : (processResult st (p, evCorrupt ev, evReason ev)).corrupted
              = if evCorrupt ev then st.corrupted ++ [p] else st.corrupted := by
            cases hc : evCorrupt ev <;> simp [processResult, hc]
          have hpg : (processResult st (p, evCorrupt ev, evReason ev)).good
              = if evCorrupt ev then st.good else st.good ++ [p] := by
            cases hc : evCorrupt ev <;> simp [processResult, hc]
          have hpl : (processResult st (p, evCorrupt ev, evReason ev)).log
              = st.log ++ [lineFor p ev] := by
            rw [lineFor_eq p ev hnr]
            cases hc : evCorrupt ev <;> simp [processResult, hc]
          refine ⟨fun x hx => ?_, fun x hx => ?_, fun x hx => ?_⟩
          · rcases ihc x hx with hin | hin
            · rw [hpc] at hin
              by_cases hc : evCorrupt ev = true
              · rw [if_pos hc] at hin
                rcases List.mem_append.mp hin with h1 | h1
                · exact Or.inl h1
                · right
                  simp at h1
                  simp [h1]
              · rw [if_neg hc] at hin
                exact Or.inl hin
            · right
              simp only [List.map_cons]
              exact List.mem_cons_of_mem _ hin
          · rcases ihg x hx with hin | hin
            · rw [hpg] at hin
              by_cases hc : evCorrupt ev = true
              · rw [if_pos hc] at hin
                exact Or.inl hin
              · rw [if_neg hc] at hin
                rcases List.mem_append.mp hin with h1 | h1
                · exact Or.inl h1
                · right
                  simp at h1
                  simp [h1]
            · right
              simp only [List.map_cons]
              exact List.mem_cons_of_mem _ hin
          · rcases ihl x hx with hin | hin
            · rw [hpl] at hin
              rcases List.mem_append.mp hin with h1 | h1
              · exact Or.inl h1
              · simp at h1
                exact Or.inr ⟨(p, ev), List.mem_cons_self _ _, h1⟩
            · obtain ⟨u, hu, hxu⟩ := hin
              exact Or.inr ⟨u, List.mem_cons_of_mem _ hu, hxu⟩

theorem logOf_scan_dry (inputs : List (String × ProcEvent)) (d₁ d₂ : Bool) :
    logOf (scan_videos inputs d₁) = logOf (scan_videos inputs d₂) := by
  unfold scan_videos
  by_cases he : inputs.isEmpty
  · simp [he]
  · rw [if_neg he, if_neg he]
    rcases hr : runLoop ⟨[], [], []⟩ inputs with ⟨st, o⟩
    cases o <;> rfl

theorem scan_openMode (inputs : List (String × ProcEvent)) (d : Bool)
    (h : inputs ≠ []) :
    logOpenMode (scan_videos inputs d) = some "w" := by
  unfold scan_videos
  rw [if_neg (by simpa using h)]
  rcases hr : runLoop ⟨[], [], []⟩ inputs with ⟨st, o⟩
  cases o <;> rfl

theorem scan_finalLog (inputs : List (String × ProcEvent)) (d : Bool)
    (prev : String) (h : inputs ≠ []) :
    finalLogContents prev (scan_videos inputs d) =
      logDump (logOf (scan_videos inputs d)) := by
  unfold scan_videos
  rw [if_neg (by simpa using h)]
  rcases hr : runLoop ⟨[], [], []⟩ inputs with ⟨st, o⟩
  cases o <;> rfl

theorem scan_finished_shape (inputs : List (String × ProcEvent))
    (dryRun : Bool) (st : ScanState) (del : List String)
    (h : scan_videos inputs dryRun = .finished st del) :
    (∀ q ∈ inputs, evRaises q.2 = false) ∧
    st = ⟨(inputs.filter fun q => evCorrupt q.2).map Prod.fst,
          (inputs.filter fun q => !evCorrupt q.2).map Prod.fst,
          inputs.map fun q => lineFor q.1 q.2⟩ ∧
    del = (if st.corrupted.isEmpty ∨ dryRun then [] else st.corrupted) := by
  obtain ⟨hne, hrl, hdel⟩ := scan_videos_finished inputs dryRun st del h
  have hall := runLoop_no_raise inputs _ _ hrl
  rw [runLoop_eq inputs ⟨[], [], []⟩ hall] at hrl
  injection hrl with h1 h2
  refine ⟨hall, ?_, hdel⟩
  rw [← h1]
  simp

theorem scan_good_append_corrupt_perm (inputs : List (String × ProcEvent))
    (dryRun : Bool) (st : ScanState) (del : List String)
    (h : scan_videos inputs dryRun = .finished st del) :
    (st.good ++ st.corrupted).Perm (inputs.map Prod.fst) := by
  obtain ⟨hall, hst, hdel⟩ := scan_finished_shape inputs dryRun st del h
  subst hst
  show ((inputs.filter fun q => !evCorrupt q.2).map Prod.fst ++
        (inputs.filter fun q => evCorrupt q.2).map Prod.fst).Perm
      (inputs.map Prod.fst)
  rw [← List.map_append]
  refine List.Perm.map Prod.fst ?_
  simpa [Bool.not_not] using
    List.filter_append_perm (fun q => !evCorrupt q.2) inputs

theorem scan_sizes (inputs : List (String × ProcEvent)) (dryRun : Bool)
    (st : ScanState) (del : List String)
    (h : scan_videos inputs dryRun = .finished st del) :
    st.good.length + st.corrupted.length = inputs.length := by
  have hp := scan_good_append_corrupt_perm inputs dryRun st del h
  have hl := hp.length_eq
  simpa using hl

theorem scan_no_raise_finishes (inputs : List (String × ProcEvent))
    (dryRun : Bool) (hne : inputs ≠ [])
    (hcaught : ∀ q ∈ inputs, evRaises q.2 = false) :
    ∃ st del, scan_videos inputs dryRun = .finished st del := by
  unfold scan_videos
  rw [if_neg (by simpa using hne),
      runLoop_eq inputs ⟨[], [], []⟩ hcaught]
  exact ⟨_, _, rfl⟩

/-- Claim C1: deletion gating.  Every path passed to `os.remove` by a run was
previously classified CORRUPT — it is in the `corrupted` list built by the
result loop, and a `CORRUPT\t<reason>\t<path>` record for it was written to
the log — so no path outside the corrupt set is ever deleted. -/
theorem C1_deletion_gating (inputs : List (String × ProcEvent)) (dryRun : Bool)
    (p : String) (hp : p ∈ deletedOf (scan_videos inputs dryRun)) :
    p ∈ corruptedOf (scan_videos inputs dryRun) ∧
    ∃ r, ("CORRUPT\t" ++ r ++ "\t" ++ p)
        ∈ logOf (scan_videos inputs dryRun) := by
  cases hs : scan_videos inputs dryRun with
  | noFiles => rw [hs] at hp; exact absurd hp (by simp [deletedOf])
  | aborted e st => rw [hs] at hp; exact absurd hp (by simp [deletedOf])
  | finished st del =>
      rw [hs] at hp
      obtain ⟨hall, hst, hdel⟩ := scan_finished_shape inputs dryRun st del hs
      simp only [deletedOf] at hp
      rw [hdel] at hp
      by_cases hcond : st.corrupted.isEmpty ∨ dryRun
      · rw [if_pos hcond] at hp
        exact absurd hp (List.not_mem_nil p)
      · rw [if_neg hcond] at hp
        refine ⟨by simpa [corruptedOf] using hp, ?_⟩
        subst hst
        obtain ⟨u, hu, hup⟩ := List.mem_map.mp hp
        have humem := (List.mem_filter.mp hu).1
        have huc := (List.mem_filter.mp hu).2
        refine ⟨evReason u.2, ?_⟩
        have hline : lineFor u.1 u.2 =
            "CORRUPT\t" ++ evReason u.2 ++ "\t" ++ p := by
          rw [lineFor_eq u.1 u.2 (hall u humem), if_pos (by simpa using huc),
              hup]
        simp only [logOf]
        exact List.mem_map.mpr ⟨u, humem, hline⟩

/-- Witness for `C1_deletion_gating` at a concrete run with one timed-out
file and `dry_run = False`. -/
theorem C1_deletion_gating_witness :
    "b.mp4" ∈ corruptedOf (scan_videos [("b.mp4", ProcEvent.timedOut)] false) ∧
    ∃ r, ("CORRUPT\t" ++ r ++ "\t" ++ "b.mp4")
        ∈ logOf (scan_videos [("b.mp4", ProcEvent.timedOut)] false) :=
  C1_deletion_gating [("b.mp4", ProcEvent.timedOut)] false "b.mp4" (by decide)

/-- Claim C2 counterexample: a reachable two-file run whose first probe
raises an uncaught exception produces zero classification results, not two —
the loop aborts before either file reaches the good or corrupt set, so the
unconditional "exactly N results, no loss" does not hold for every run. -/
theorem C2_loss_on_abort_cex :
    scan_videos [("c.mp4", .raised "oops"), ("d.mp4", .timedOut)] false =
      .aborted "oops" ⟨[], [], []⟩ ∧
    (goodOf (scan_videos [("c.mp4", .raised "oops"),
        ("d.mp4", .timedOut)] false)).length +
      (corruptedOf (scan_videos [("c.mp4", .raised "oops"),
        ("d.mp4", .timedOut)] false)).length ≠
      [("c.mp4", ProcEvent.raised "oops"),
       ("d.mp4", ProcEvent.timedOut)].length := by
  decide

/-- Claim C2 as amended: for every run in which every probe invocation
yields an outcome (none raises an uncaught exception), each submitted path
is classified exactly once — the concatenation of the good and corrupt sets
is a permutation of the submitted path list (no loss, no duplication, for
every completion order, hence every worker count) — and their sizes sum to
N; a zero-file run trivially produces zero results. -/
theorem C2_exactly_n_amended (inputs : List (String × ProcEvent))
    (dryRun : Bool) (hcaught : ∀ q ∈ inputs, evRaises q.2 = false) :
    (goodOf (scan_videos inputs dryRun)).length +
      (corruptedOf (scan_videos inputs dryRun)).length = inputs.length ∧
    (goodOf (scan_videos inputs dryRun) ++
      corruptedOf (scan_videos inputs dryRun)).Perm (inputs.map Prod.fst) := by
  by_cases hne : inputs = []
  · subst hne
    simp [scan_videos, goodOf, corruptedOf]
  · obtain ⟨st, del, hfin⟩ := scan_no_raise_finishes inputs dryRun hne hcaught
    rw [hfin]
    simp only [goodOf, corruptedOf]
    exact ⟨scan_sizes inputs dryRun st del hfin,
           scan_good_append_corrupt_perm inputs dryRun st del hfin⟩

/-- Witness for `C2_exactly_n_amended` on a two-file run with a playable
file and one that hits the missing probe. -/
theorem C2_exactly_n_amended_witness :
    (goodOf (scan_videos [("c.mp4", ProcEvent.completed 0 ""),
        ("d.mp4", ProcEvent.fileNotFound)] true)).length +
      (corruptedOf (scan_videos [("c.mp4", ProcEvent.completed 0 ""),
        ("d.mp4", ProcEvent.fileNotFound)] true)).length =
      [("c.mp4", ProcEvent.completed 0 ""),
       ("d.mp4", ProcEvent.fileNotFound)].length ∧
    (goodOf (scan_videos [("c.mp4", ProcEvent.completed 0 ""),
        ("d.mp4", ProcEvent.fileNotFound)] true) ++
      corruptedOf (scan_videos [("c.mp4", ProcEvent.completed 0 ""),
        ("d.mp4", ProcEvent.fileNotFound)] true)).Perm
      ([("c.mp4", ProcEvent.completed 0 ""),
        ("d.mp4", ProcEvent.fileNotFound)].map Prod.fst) :=
  C2_exactly_n_amended
    [("c.mp4", ProcEvent.completed 0 ""), ("d.mp4", ProcEvent.fileNotFound)]
    true (by decide)

/-- Claim C3: in a completed run the verdict is OK exactly when the probe
says playable (`check_video` negates the playable flag), every non-playable
probe yields CORRUPT with the probe's reason carried through unchanged, and
the log holds exactly one line per file — `OK\t<path>` for playable files and
`CORRUPT\t<reason>\t<path>` for all others. -/
theorem C3_verdict_and_log (inputs : List (String × ProcEvent)) (dryRun : Bool)
    (st : ScanState) (del : List String) (p : String) (ev : ProcEvent)
    (playable : Bool) (reason : String)
    (h : scan_videos inputs dryRun = .finished st del)
    (hmem : (p, ev) ∈ inputs)
    (hprobe : vlc_can_play ev = .ok (playable, reason)) :
    st.log = inputs.map (fun q => lineFor q.1 q.2) ∧
    st.log.length = inputs.length ∧
    check_video p ev = .ok (p, !playable, reason) ∧
    lineFor p ev ∈ st.log ∧
    (playable = true → lineFor p ev = "OK\t" ++ p) ∧
    (playable = false →
      lineFor p ev = "CORRUPT\t" ++ reason ++ "\t" ++ p) := by
  obtain ⟨hall, hst, hdel⟩ := scan_finished_shape inputs dryRun st del h
  subst hst
  refine ⟨rfl, by simp, ?_, ?_, ?_, ?_⟩
  · simp [check_video, hprobe]
  · exact List.mem_map.mpr ⟨(p, ev), hmem, rfl⟩
  · intro hpl
    subst hpl
    simp [lineFor, hprobe]
  · intro hpl
    subst hpl
    simp [lineFor, hprobe]

/-- Witness for `C3_verdict_and_log` on a two-file run, instantiated at the
timed-out file. -/
theorem C3_verdict_and_log_witness :
    (["OK\ta.mp4", "CORRUPT\ttimeout expired\tb.mp4"] : List String) =
      [("a.mp4", ProcEvent.completed 0 ""),
       ("b.mp4", ProcEvent.timedOut)].map (fun q => lineFor q.1 q.2) ∧
    (["OK\ta.mp4", "CORRUPT\ttimeout expired\tb.mp4"] : List String).length =
      [("a.mp4", ProcEvent.completed 0 ""),
       ("b.mp4", ProcEvent.timedOut)].length ∧
    check_video "b.mp4" ProcEvent.timedOut =
      .ok ("b.mp4", !false, "timeout expired") ∧
    lineFor "b.mp4" ProcEvent.timedOut ∈
      (["OK\ta.mp4", "CORRUPT\ttimeout expired\tb.mp4"] : List String) ∧
    (false = true → lineFor "b.mp4" ProcEvent.timedOut = "OK\t" ++ "b.mp4") ∧
    (false = false → lineFor "b.mp4" ProcEvent.timedOut =
      "CORRUPT\t" ++ "timeout expired" ++ "\t" ++ "b.mp4") :=
  C3_verdict_and_log
    [("a.mp4", ProcEvent.completed 0 ""), ("b.mp4", ProcEvent.timedOut)]
    true
    ⟨["b.mp4"], ["a.mp4"], ["OK\ta.mp4", "CORRUPT\ttimeout expired\tb.mp4"]⟩
    [] "b.mp4" ProcEvent.timedOut false "timeout expired"
    (by decide) (by decide) (by decide)

/-- Claim C4 counterexample: with exit status 1 and stderr `" boom\n"` the
probe's reason is the whitespace-stripped text `"boom"`, not the stderr text
itself — the code applies `.strip()` before carrying the diagnostic. -/
theorem C4_reason_not_raw_stderr_cex :
    vlc_can_play (.completed 1 " boom\n") ≠
      Except.ok (false, " boom\n") ∧
    vlc_can_play (.completed 1 " boom\n") = .ok (false, "boom") := by
  decide

/-- Claim C4 as amended: a completed probe with exit status zero returns
playable, and a non-zero exit status returns not playable with the reason
equal to the stderr text stripped of leading and trailing whitespace, which
may be empty. -/
theorem C4_exit_status_semantics (rc : Int) (s : String) (h : rc ≠ 0) :
    vlc_can_play (.completed 0 s) = .ok (true, "ok") ∧
    vlc_can_play (.completed rc s) = .ok (false, pyStrip s) ∧
    pyStrip "" = "" :=
  ⟨by simp [vlc_can_play], by simp [vlc_can_play, h], rfl⟩

/-- Witness for `C4_exit_status_semantics` at exit status 1. -/
theorem C4_exit_status_semantics_witness :
    vlc_can_play (.completed 0 " boom\n") = .ok (true, "ok") ∧
    vlc_can_play (.completed 1 " boom\n") = .ok (false, pyStrip " boom\n") ∧
    pyStrip "" = "" :=
  C4_exit_status_semantics 1 " boom\n" (by decide)

/-- Claim C5: when the probe's subprocess run times out, `vlc_can_play`
catches the exception and returns a value — the not-playable outcome with
reason `"timeout expired"`, the code's TimedOut encoding — rather than
raising, and `check_video` therefore classifies the file instead of hanging
or killing the run. -/
theorem C5_timeout_returns (p : String) :
    vlc_can_play .timedOut = .ok (false, "timeout expired") ∧
    check_video p .timedOut = .ok (p, true, "timeout expired") :=
  ⟨rfl, rfl⟩

/-- Claim C6 counterexample: with `cvlc` missing, the single file of the run
is recorded in the corrupt set with a `CORRUPT` log line — not in a distinct
unavailable category — and with `dry_run = False` it is even deleted. -/
theorem C6_unavailable_is_corrupt_cex :
    scan_videos [("a.mp4", .fileNotFound)] false =
      .finished ⟨["a.mp4"], [],
        ["CORRUPT\t" ++ unavailableMsg ++ "\ta.mp4"]⟩ ["a.mp4"] ∧
    goodOf (scan_videos [("a.mp4", .fileNotFound)] false) = [] := by
  decide

/-- Claim C6 as amended: when `cvlc` is missing the probe returns immediately
with the not-playable outcome carrying the fixed unavailable message; the
affected file is recorded as CORRUPT with that reason text (there is no
distinct unavailable category), and the run still classifies every remaining
file. -/
theorem C6_unavailable_amended (p : String)
    (rest : List (String × ProcEvent)) (dryRun : Bool)
    (st : ScanState) (del : List String)
    (h : scan_videos ((p, .fileNotFound) :: rest) dryRun = .finished st del) :
    vlc_can_play .fileNotFound = .ok (false, unavailableMsg) ∧
    p ∈ st.corrupted ∧
    ("CORRUPT\t" ++ unavailableMsg ++ "\t" ++ p) ∈ st.log ∧
    st.good.length + st.corrupted.length = rest.length + 1 := by
  obtain ⟨hall, hst, hdel⟩ := scan_finished_shape _ dryRun st del h
  have hsz := scan_sizes _ dryRun st del h
  subst hst
  refine ⟨rfl, ?_, ?_, by simpa using hsz⟩
  · apply List.mem_map.mpr
    refine ⟨(p, .fileNotFound), ?_, rfl⟩
    exact List.mem_filter.mpr ⟨List.mem_cons_self _ _, rfl⟩
  · apply List.mem_map.mpr
    exact ⟨(p, .fileNotFound), List.mem_cons_self _ _, rfl⟩

/-- Witness for `C6_unavailable_amended` on a run whose first file hits the
missing probe and whose second file is playable. -/
theorem C6_unavailable_amended_witness :
    vlc_can_play .fileNotFound = .ok (false, unavailableMsg) ∧
    "a.mp4" ∈ (["a.mp4"] : List String) ∧
    ("CORRUPT\t" ++ unavailableMsg ++ "\t" ++ "a.mp4") ∈
      (["CORRUPT\t" ++ unavailableMsg ++ "\ta.mp4", "OK\tb.mp4"] :
        List String) ∧
    (["b.mp4"] : List String).length + (["a.mp4"] : List String).length =
      [("b.mp4", ProcEvent.completed 0 "")].length + 1 :=
  C6_unavailable_amended "a.mp4" [("b.mp4", ProcEvent.completed 0 "")] false
    ⟨["a.mp4"], ["b.mp4"],
      ["CORRUPT\t" ++ unavailableMsg ++ "\ta.mp4", "OK\tb.mp4"]⟩
    ["a.mp4"] (by decide)

/-- Claim C7 counterexample: an unexpected exception while probing the first
file aborts the whole run — the second file is never classified and no
not-playable outcome is recorded for the first; nothing reaches the good or
corrupt sets. -/
theorem C7_crash_aborts_cex :
    scan_videos [("a.mp4", .raised "boom"),
                 ("b.mp4", .completed 0 "")] true =
      .aborted "boom" ⟨[], [], []⟩ ∧
    goodOf (scan_videos [("a.mp4", .raised "boom"),
                         ("b.mp4", .completed 0 "")] true) = [] ∧
    corruptedOf (scan_videos [("a.mp4", .raised "boom"),
                              ("b.mp4", .completed 0 "")] true) = [] := by
  decide

/-- Claim C7 as amended: only the exceptions the probe anticipates (timeout
expiry and a missing `cvlc`) are isolated — a run whose probe events all fall
in the caught set finishes and classifies every file — while an uncaught
exception turns into an `Except.error` that aborts the batch. -/
theorem C7_isolation_amended (inputs : List (String × ProcEvent))
    (dryRun : Bool) (p m : String) (hne : inputs ≠ [])
    (hcaught : ∀ q ∈ inputs, evRaises q.2 = false) :
    check_video p (.raised m) = .error m ∧
    ∃ st del, scan_videos inputs dryRun = .finished st del ∧
      st.good.length + st.corrupted.length = inputs.length := by
  obtain ⟨st, del, hfin⟩ := scan_no_raise_finishes inputs dryRun hne hcaught
  exact ⟨rfl, st, del, hfin, scan_sizes _ _ _ _ hfin⟩

/-- Witness for `C7_isolation_amended`: a timed-out file and a playable file
both get classified. -/
theorem C7_isolation_amended_witness :
    check_video "x.mp4" (.raised "boom") = .error "boom" ∧
    ∃ st del,
      scan_videos [("a.mp4", ProcEvent.timedOut),
                   ("b.mp4", ProcEvent.completed 0 "")] false =
        .finished st del ∧
      st.good.length + st.corrupted.length =
        [("a.mp4", ProcEvent.timedOut),
         ("b.mp4", ProcEvent.completed 0 "")].length :=
  C7_isolation_amended
    [("a.mp4", ProcEvent.timedOut), ("b.mp4", ProcEvent.completed 0 "")]
    false "x.mp4" "boom" (by decide) (by decide)

/-- Claim C8 counterexample: a dry run over one playable file removes nothing
but still rewrites the log file, so the filesystem is not byte-identical —
the log file's bytes change from `"previous bytes"` to `"OK\ta.mp4\n"`. -/
theorem C8_dry_run_mutates_log_cex :
    deletedOf (scan_videos [("a.mp4", .completed 0 "")] true) = [] ∧
    finalLogContents "previous bytes"
        (scan_videos [("a.mp4", .completed 0 "")] true) = "OK\ta.mp4\n" ∧
    ("OK\ta.mp4\n" : String) ≠ "previous bytes" := by
  decide

/-- Claim C8 as amended: with `dry_run = True` no path is ever passed to
`os.remove` — in particular no file in the corrupt set is removed — on any
run; the log file at `log_path` is still written, which is the one
filesystem mutation a dry run performs. -/
theorem C8_dry_run_no_removal (inputs : List (String × ProcEvent)) :
    deletedOf (scan_videos inputs true) = [] := by
  unfold scan_videos
  by_cases he : inputs.isEmpty
  · rw [if_pos he]
    rfl
  · rw [if_neg he]
    rcases hr : runLoop ⟨[], [], []⟩ inputs with ⟨st, o⟩
    cases o with
    | some e => rfl
    | none => simp [deletedOf]

/-- Claim C9: whenever at least one candidate file is discovered, the log
file at `log_path` is opened with mode `"w"`; the bytes it holds afterwards
are exactly the written lines, independent of whatever it held before (the
pre-existing file is erased); and the same log lines are produced whether or
not `dry_run` is set. -/
theorem C9_log_truncated_and_written (inputs : List (String × ProcEvent))
    (dryRun : Bool) (prev : String) (hne : inputs ≠ []) :
    logOpenMode (scan_videos inputs dryRun) = some "w" ∧
    finalLogContents prev (scan_videos inputs dryRun) =
      logDump (logOf (scan_videos inputs dryRun)) ∧
    logOf (scan_videos inputs true) = logOf (scan_videos inputs false) :=
  ⟨scan_openMode inputs dryRun hne, scan_finalLog inputs dryRun prev hne,
   logOf_scan_dry inputs true false⟩

/-- Witness for `C9_log_truncated_and_written` on a one-file dry run over a
log file that previously held other bytes. -/
theorem C9_log_truncated_and_written_witness :
    logOpenMode (scan_videos [("a.mp4", ProcEvent.completed 0 "")] true) =
      some "w" ∧
    finalLogContents "previous bytes"
        (scan_videos [("a.mp4", ProcEvent.completed 0 "")] true) =
      logDump (logOf (scan_videos [("a.mp4", ProcEvent.completed 0 "")]
        true)) ∧
    logOf (scan_videos [("a.mp4", ProcEvent.completed 0 "")] true) =
      logOf (scan_videos [("a.mp4", ProcEvent.completed 0 "")] false) :=
  C9_log_truncated_and_written [("a.mp4", ProcEvent.completed 0 "")] true
    "previous bytes" (by decide)

/-- Claim C10: `check_video` returns exactly the path it was given, and every
path in the good set, the corrupt set or the deletion list — and every log
line — stems from the discovered input list. -/
theorem C10_path_preservation (inputs : List (String × ProcEvent))
    (dryRun : Bool) (p : String) (ev : ProcEvent)
    (r : String × Bool × String) (q line : String)
    (hr : check_video p ev = .ok r)
    (hq : q ∈ goodOf (scan_videos inputs dryRun) ∨
          q ∈ corruptedOf (scan_videos inputs dryRun) ∨
          q ∈ deletedOf (scan_videos inputs dryRun))
    (hline : line ∈ logOf (scan_videos inputs dryRun)) :
    r.1 = p ∧ q ∈ inputs.map Prod.fst ∧
    ∃ u ∈ inputs, line = lineFor u.1 u.2 := by
  obtain ⟨hnr, hreq⟩ := check_video_ok_inv p ev r hr
  refine ⟨by rw [hreq], ?_, ?_⟩
  · cases hs : scan_videos inputs dryRun with
    | noFiles =>
        rw [hs] at hq
        simp [goodOf, corruptedOf, deletedOf] at hq
    | aborted e st =>
        obtain ⟨hne, hrl⟩ := scan_videos_aborted inputs dryRun e st hs
        have hscope := runLoop_scope inputs ⟨[], [], []⟩
        rw [hrl] at hscope
        rw [hs] at hq
        simp only [goodOf, corruptedOf, deletedOf] at hq
        rcases hq with hq | hq | hq
        · rcases hscope.2.1 q hq with hin | hin
          · simp at hin
          · exact hin
        · rcases hscope.1 q hq with hin | hin
          · simp at hin
          · exact hin
        · simp at hq
    | finished st del =>
        obtain ⟨hne, hrl, hdel⟩ := scan_videos_finished inputs dryRun st del hs
        have hscope := runLoop_scope inputs ⟨[], [], []⟩
        rw [hrl] at hscope
        rw [hs] at hq
        simp only [goodOf, corruptedOf, deletedOf] at hq
        have hqc : q ∈ st.corrupted → q ∈ inputs.map Prod.fst := by
          intro hqq
          rcases hscope.1 q hqq with hin | hin
          · simp at hin
          · exact hin
        rcases hq with hq | hq | hq
        · rcases hscope.2.1 q hq with hin | hin
          · simp at hin
          · exact hin
        · exact hqc hq
        · rw [hdel] at hq
          by_cases hcond : st.corrupted.isEmpty ∨ dryRun
          · rw [if_pos hcond] at hq
            simp at hq
          · rw [if_neg hcond] at hq
            exact hqc hq
  · cases hs : scan_videos inputs dryRun with
    | noFiles =>
        rw [hs] at hline
        simp [logOf] at hline
    | aborted e st =>
        obtain ⟨hne, hrl⟩ := scan_videos_aborted inputs dryRun e st hs
        have hscope := runLoop_scope inputs ⟨[], [], []⟩
        rw [hrl] at hscope
        rw [hs] at hline
        simp only [logOf] at hline
        rcases hscope.2.2 line hline with hin | hin
        · simp at hin
        · exact hin
    | finished st del =>
        obtain ⟨hne, hrl, hdel⟩ := scan_videos_finished inputs dryRun st del hs
        have hscope := runLoop_scope inputs ⟨[], [], []⟩
        rw [hrl] at hscope
        rw [hs] at hline
        simp only [logOf] at hline
        rcases hscope.2.2 line hline with hin | hin
        · simp at hin
        · exact hin

/-- Witness for `C10_path_preservation` on a two-file run with one corrupt
member, one log line and a separately checked path. -/
theorem C10_path_preservation_witness :
    ("c.mp4", true, "timeout expired").1 = "c.mp4" ∧
    "b.mp4" ∈ [("a.mp4", ProcEvent.completed 0 ""),
               ("b.mp4", ProcEvent.timedOut)].map Prod.fst ∧
    ∃ u ∈ [("a.mp4", ProcEvent.completed 0 ""),
           ("b.mp4", ProcEvent.timedOut)],
      ("OK\ta.mp4" : String) = lineFor u.1 u.2 :=
  C10_path_preservation
    [("a.mp4", ProcEvent.completed 0 ""), ("b.mp4", ProcEvent.timedOut)]
    false "c.mp4" ProcEvent.timedOut ("c.mp4", true, "timeout expired")
    "b.mp4" "OK\ta.mp4" (by decide) (by decide) (by decide)
